import Mathlib

/-!
Verification of the promptdungeon turn engine against its specification.

This file gives a shallow embedding, in Lean 4, of the parts of the
promptdungeon code base that the specification's testable properties talk
about:

* `json_utils.coerce_json` and its repair ladder (strict JSON parsing,
  code-fence stripping, brace extraction, regex-style repairs, Python
  literal evaluation, narration fallback);
* `story.StorySystem._turn_to_events` (the Turn-to-Event translator);
* `core.EventBus.publish` and `core.GameState`;
* `commands.MoveCommand.execute`;
* `game_engine.VisualDungeon.move_entity`, `_combat`, `_check_item_pickup`;
* `enhanced_visual_game.EnhancedVisualGame._apply_layout` and
  `EnhancedPlayer.take_damage` / `heal`.

Python objects with identity are modelled by indices into the owning list
(aliasing through `self.entities` becomes `List.set`), Python `int` is
`Int`, strings are `String` / `List Char`, exceptions are `Option`, and
`random.randint(a, b)` is an explicit damage parameter constrained to
`a ≤ dmg ≤ b` in the theorems.
-/

namespace PromptDungeon


/-! ## Python-style values and whitespace -/

/-- JSON / Python-literal values as produced by `json.loads` and
`ast.literal_eval`.  Numbers keep their source lexeme (Python would build an
`int` or `float`; no theorem below depends on numeric value beyond
zero-ness).  Objects carry their fields in insertion order, with Python
`dict` keep-last-value-on-duplicate semantics enforced at construction. -/
inductive JVal where
  | jnull : JVal
  | jbool (b : Bool) : JVal
  | jnum (lex : String) : JVal
  | jstr (s : String) : JVal
  | jarr (elems : List JVal) : JVal
  | jobj (fields : List (String × JVal)) : JVal
deriving Repr

/-- Python whitespace (`str.strip`, regex `\s`), ASCII fragment. -/
def isPySpace (c : Char) : Bool :=
  c = ' ' || c = '\t' || c = '\n' || c = '\r' || c = '\x0b' || c = '\x0c'

/-- Python `str.strip()` on a character list. -/
def pyStrip (cs : List Char) : List Char :=
  ((cs.dropWhile isPySpace).reverse.dropWhile isPySpace).reverse

/-- JSON whitespace accepted by `json.loads` between tokens. -/
def isJsonWs (c : Char) : Bool :=
  c = ' ' || c = '\t' || c = '\n' || c = '\r'

/-- Insert a key/value pair into an object's field list with Python `dict`
semantics: an existing key has its value replaced in place, a new key is
appended. -/
def objInsert (fields : List (String × JVal)) (k : String) (v : JVal) :
    List (String × JVal) :=
  match fields with
  | [] => [(k, v)]
  | (k', v') :: rest =>
      if k' = k then (k', v) :: rest else (k', v') :: objInsert rest k v

/-! ## Strict JSON parsing (embedding of `json.loads`)

A fuel-indexed recursive-descent parser.  `NaN`/`Infinity` extensions of
CPython's loader are not modelled; no theorem below feeds them in. -/

/-- Parse the body of a JSON string (after the opening quote), handling the
standard escapes.  Returns the decoded string and the remaining input. -/
def parseStringBody (acc : List Char) : List Char → Option (String × List Char)
  | [] => none
  | '"' :: rest => some (String.mk acc.reverse, rest)
  | '\\' :: 'u' :: a :: b :: c :: d :: rest =>
      let isHex := fun (ch : Char) =>
        ch.isDigit || ('a'.toNat ≤ ch.toNat && ch.toNat ≤ 'f'.toNat)
          || ('A'.toNat ≤ ch.toNat && ch.toNat ≤ 'F'.toNat)
      if isHex a && isHex b && isHex c && isHex d then
        let hex := fun (ch : Char) =>
          if ch.isDigit then ch.toNat - '0'.toNat
          else if 'a'.toNat ≤ ch.toNat && ch.toNat ≤ 'f'.toNat then ch.toNat - 'a'.toNat + 10
          else ch.toNat - 'A'.toNat + 10
        let code := ((hex a * 16 + hex b) * 16 + hex c) * 16 + hex d
        parseStringBody (Char.ofNat code :: acc) rest
      else none
  | '\\' :: e :: rest =>
      (match e with
       | '"' => some '"'
       | '\\' => some '\\'
       | '/' => some '/'
       | 'b' => some '\x08'
       | 'f' => some '\x0c'
       | 'n' => some '\n'
       | 'r' => some '\r'
       | 't' => some '\t'
       | _ => none).bind fun ch => parseStringBody (ch :: acc) rest
  | c :: rest =>
      if c.toNat < 32 then none else parseStringBody (c :: acc) rest

/-- Lex a JSON number starting at the current position; returns its lexeme
and the rest.  Mirrors the strict JSON number grammar; over-consumption
differences with CPython are absorbed by the caller's
rest-must-be-delimiter checks. -/
def parseNumber (cs : List Char) : Option (String × List Char) :=
  let (sign, cs1) :=
    match cs with
    | '-' :: rest => (['-'], rest)
    | _ => ([], cs)
  match cs1 with
  | [] => none
  | c :: _ =>
      if c.isDigit then
        let intPart :=
          if c = '0' then ['0'] else cs1.takeWhile Char.isDigit
        let afterInt := cs1.drop intPart.length
        let (frac, afterFrac) :=
          match afterInt with
          | '.' :: d :: _ =>
              if d.isDigit then
                let ds := (afterInt.drop 1).takeWhile Char.isDigit
                ('.' :: ds, afterInt.drop (1 + ds.length))
              else ([], afterInt)
          | _ => ([], afterInt)
        let (expPart, afterExp) :=
          match afterFrac with
          | e :: rest =>
              if e = 'e' || e = 'E' then
                match rest with
                | s :: d :: _ =>
                    if (s = '+' || s = '-') && d.isDigit then
                      let ds := (rest.drop 1).takeWhile Char.isDigit
                      (e :: s :: ds, rest.drop (1 + ds.length))
                    else if s.isDigit then
                      let ds := rest.takeWhile Char.isDigit
                      (e :: ds, rest.drop ds.length)
                    else ([], afterFrac)
                | s :: [] =>
                    if s.isDigit then (e :: [s], [])
                    else ([], afterFrac)
                | [] => ([], afterFrac)
              else ([], afterFrac)
          | [] => ([], afterFrac)
        some (String.mk (sign ++ intPart ++ frac ++ expPart), afterExp)
      else none

mutual

/-- Parse one JSON value (fuel-indexed). -/
def parseJVal : Nat → List Char → Option (JVal × List Char)
  | 0, _ => none
  | fuel + 1, cs =>
      match cs.dropWhile isJsonWs with
      | [] => none
      | '{' :: rest => parseJObj fuel rest
      | '[' :: rest => parseJArr fuel rest
      | '"' :: rest => (parseStringBody [] rest).map fun (s, r) => (JVal.jstr s, r)
      | 't' :: 'r' :: 'u' :: 'e' :: rest => some (JVal.jbool true, rest)
      | 'f' :: 'a' :: 'l' :: 's' :: 'e' :: rest => some (JVal.jbool false, rest)
      | 'n' :: 'u' :: 'l' :: 'l' :: rest => some (JVal.jnull, rest)
      | c :: rest =>
          if c = '-' || c.isDigit then
            (parseNumber (c :: rest)).map fun (lex, r) => (JVal.jnum lex, r)
          else none

/-- Parse an object body, right after the opening brace. -/
def parseJObj : Nat → List Char → Option (JVal × List Char)
  | 0, _ => none
  | fuel + 1, cs =>
      match cs.dropWhile isJsonWs with
      | '}' :: rest => some (JVal.jobj [], rest)
      | other => parseJMembers fuel other []

/-- Parse the members of a non-empty object. -/
def parseJMembers : Nat → List Char → List (String × JVal) →
    Option (JVal × List Char)
  | 0, _, _ => none
  | fuel + 1, cs, acc =>
      match cs.dropWhile isJsonWs with
      | '"' :: rest =>
          match parseStringBody [] rest with
          | none => none
          | some (key, afterKey) =>
              match afterKey.dropWhile isJsonWs with
              | ':' :: afterColon =>
                  match parseJVal fuel afterColon with
                  | none => none
                  | some (v, afterVal) =>
                      let acc' := objInsert acc key v
                      match afterVal.dropWhile isJsonWs with
                      | ',' :: afterComma => parseJMembers fuel afterComma acc'
                      | '}' :: afterBrace => some (JVal.jobj acc', afterBrace)
                      | _ => none
              | _ => none
      | _ => none

/-- Parse an array body, right after the opening bracket. -/
def parseJArr : Nat → List Char → Option (JVal × List Char)
  | 0, _ => none
  | fuel + 1, cs =>
      match cs.dropWhile isJsonWs with
      | ']' :: rest => some (JVal.jarr [], rest)
      | other => parseJElems fuel other []

/-- Parse the elements of a non-empty array. -/
def parseJElems : Nat → List Char → List JVal → Option (JVal × List Char)
  | 0, _, _ => none
  | fuel + 1, cs, acc =>
      match parseJVal fuel cs with
      | none => none
      | some (v, afterVal) =>
          match afterVal.dropWhile isJsonWs with
          | ',' :: afterComma => parseJElems fuel afterComma (acc ++ [v])
          | ']' :: afterBracket => some (JVal.jarr (acc ++ [v]), afterBracket)
          | _ => none

end

/-- Embedding of `json.loads`: parse exactly one JSON document, allowing
only whitespace afterwards. -/
def jsonLoads (cs : List Char) : Option JVal :=
  match parseJVal (cs.length + 2) cs with
  | some (v, rest) => if (rest.dropWhile isJsonWs).isEmpty then some v else none
  | none => none

/-! ## The repair ladder of `json_utils.py` -/

/-- Embedding of `re.sub(r"^```[a-zA-Z0-9_-]*\n", "", s)`: the pattern is
anchored at the start (no multiline flag), so at most the leading fence
line is removed. -/
def stripFenceHead (cs : List Char) : List Char :=
  match cs with
  | '`' :: '`' :: '`' :: rest =>
      let tag := rest.takeWhile fun c => c.isAlphanum || c = '_' || c = '-'
      let after := rest.drop tag.length
      match after with
      | '\n' :: more => more
      | _ => cs
  | _ => cs

/-- Embedding of `json_utils._strip_code_fences`. -/
def stripCodeFences (cs : List Char) : List Char :=
  let s := pyStrip cs
  let fence : List Char := ['`', '`', '`']
  let s :=
    if fence.isPrefixOf s && fence.isSuffixOf s then
      let s1 := stripFenceHead s
      if fence.isSuffixOf s1 then s1.take (s1.length - 3) else s1
    else s
  pyStrip s

/-- Embedding of `json_utils._extract_braced`: the slice from the first
opening brace to the last closing brace, when the former precedes the
latter, else the text unchanged. -/
def extractBraced (cs : List Char) : List Char :=
  match cs.findIdx? (· = '{'), cs.reverse.findIdx? (· = '}') with
  | some s, some rIdx =>
      let e := cs.length - 1 - rIdx
      if s < e then (cs.drop s).take (e + 1 - s) else cs
  | _, _ => cs

/-- Recognise the tail of the key-quoting pattern
`([A-Za-z_][A-Za-z0-9_\-]*)\s*:\s` right after the delimiter character;
returns the identifier and the input after the single whitespace that
follows the colon. -/
def matchKeyTail (cs : List Char) : Option (List Char × List Char) :=
  match cs with
  | [] => none
  | c :: rest =>
      if c.isAlpha || c = '_' then
        let identTail := rest.takeWhile fun ch => ch.isAlphanum || ch = '_' || ch = '-'
        let afterIdent := rest.drop identTail.length
        let afterWs := afterIdent.dropWhile isPySpace
        match afterWs with
        | ':' :: w :: restAfter =>
            if isPySpace w then some (c :: identTail, restAfter) else none
        | _ => none
      else none

/-- Embedding of
`re.sub(r"(?m)(\{|,|\s)([A-Za-z_][A-Za-z0-9_\-]*)\s*:\s", r'\1"\2": ', s)`:
left-to-right, non-overlapping, resuming after each match. -/
def keyQuoteSub : Nat → List Char → List Char
  | 0, cs => cs
  | _, [] => []
  | fuel + 1, c :: rest =>
      if c = '{' || c = ',' || isPySpace c then
        match matchKeyTail rest with
        | some (ident, after) =>
            c :: '"' :: (ident ++ '"' :: ':' :: ' ' :: keyQuoteSub fuel after)
        | none => c :: keyQuoteSub fuel rest
      else c :: keyQuoteSub fuel rest

/-- Embedding of Python `str.replace`: replace every non-overlapping
occurrence of `pat` (assumed non-empty) by `rep`, scanning left to right. -/
def pyReplace : Nat → List Char → List Char → List Char → List Char
  | 0, cs, _, _ => cs
  | _, [], _, _ => []
  | fuel + 1, c :: rest, pat, rep =>
      if pat.isPrefixOf (c :: rest) then
        rep ++ pyReplace fuel ((c :: rest).drop pat.length) pat rep
      else c :: pyReplace fuel rest pat rep

/-- Embedding of `re.sub(r",\s*(?=[}\]])", "", s)`: drop a comma and the
following whitespace when a closing brace or bracket comes next; the
lookahead is not consumed, so scanning resumes at the bracket. -/
def stripTrailingCommas : Nat → List Char → List Char
  | 0, cs => cs
  | _, [] => []
  | fuel + 1, c :: rest =>
      if c = ',' then
        let after := rest.dropWhile isPySpace
        match after with
        | b :: _ =>
            if b = '}' || b = ']' then stripTrailingCommas fuel after
            else ',' :: stripTrailingCommas fuel rest
        | [] => ',' :: stripTrailingCommas fuel rest
      else c :: stripTrailingCommas fuel rest

/-- The single-quote character, kept out of literal syntax. -/
def squote : Char := Char.ofNat 39

/-- Embedding of `s.replace("'", '"')`. -/
def swapQuotes (cs : List Char) : List Char :=
  cs.map fun c => if c = squote then '"' else c

/-! ## A fragment of `ast.literal_eval`

The coercion ladder only inspects `literal_eval`'s output through
`isinstance(obj, dict)`, so tuples, sets, complex numbers, byte strings and
non-string dictionary keys — which CPython would accept but which can never
satisfy that test with string keys — are modelled as parse failures; the
observable behaviour of `coerce_json` is unchanged for them except for
dictionaries with non-string keys, which are outside every theorem below. -/

/-- Parse a Python string literal body, after its opening quote `q`.
Unknown escapes keep the backslash, as CPython does. -/
def parsePyString (q : Char) (acc : List Char) : List Char → Option (String × List Char)
  | [] => none
  | '\\' :: e :: rest =>
      let decoded : List Char :=
        if e = '\\' then ['\\']
        else if e = 'n' then ['\n']
        else if e = 't' then ['\t']
        else if e = 'r' then ['\r']
        else if e = 'b' then ['\x08']
        else if e = 'f' then ['\x0c']
        else if e = '0' then ['\x00']
        else if e = '"' then ['"']
        else if e = squote then [squote]
        else ['\\', e]
      parsePyString q (decoded.reverse ++ acc) rest
  | c :: rest =>
      if c = q then some (String.mk acc.reverse, rest)
      else if c = '\n' then none
      else parsePyString q (c :: acc) rest

/-- Lex a Python numeric literal with optional sign; accepts the common
`int`/`float` shapes (`3`, `-3`, `+2.5`, `1e4`, `.5`). -/
def pyNumber (cs : List Char) : Option (String × List Char) :=
  let (sign, cs1) :=
    match cs with
    | '-' :: rest => (['-'], rest)
    | '+' :: rest => (['+'], rest)
    | _ => ([], cs)
  let intDigits := cs1.takeWhile Char.isDigit
  let afterInt := cs1.drop intDigits.length
  let (frac, afterFrac) :=
    match afterInt with
    | '.' :: rest =>
        let ds := rest.takeWhile Char.isDigit
        ('.' :: ds, rest.drop ds.length)
    | _ => ([], afterInt)
  if intDigits.isEmpty && frac.length ≤ 1 then none
  else
    let (expPart, afterExp) :=
      match afterFrac with
      | e :: rest =>
          if e = 'e' || e = 'E' then
            match rest with
            | s :: d :: _ =>
                if (s = '+' || s = '-') && d.isDigit then
                  let ds := (rest.drop 1).takeWhile Char.isDigit
                  (e :: s :: ds, rest.drop (1 + ds.length))
                else if s.isDigit then
                  let ds := rest.takeWhile Char.isDigit
                  (e :: ds, rest.drop ds.length)
                else ([], afterFrac)
            | s :: [] =>
                if s.isDigit then (e :: [s], []) else ([], afterFrac)
            | [] => ([], afterFrac)
          else ([], afterFrac)
      | [] => ([], afterFrac)
    some (String.mk (sign ++ intDigits ++ frac ++ expPart), afterExp)

mutual

/-- Parse one Python literal (fuel-indexed fragment of `ast.literal_eval`). -/
def parsePyVal : Nat → List Char → Option (JVal × List Char)
  | 0, _ => none
  | fuel + 1, cs =>
      match cs.dropWhile isPySpace with
      | [] => none
      | '{' :: rest => parsePyDict fuel rest
      | '[' :: rest => parsePyList fuel rest
      | 'T' :: 'r' :: 'u' :: 'e' :: rest => some (JVal.jbool true, rest)
      | 'F' :: 'a' :: 'l' :: 's' :: 'e' :: rest => some (JVal.jbool false, rest)
      | 'N' :: 'o' :: 'n' :: 'e' :: rest => some (JVal.jnull, rest)
      | c :: rest =>
          if c = '"' || c = squote then
            (parsePyString c [] rest).map fun (s, r) => (JVal.jstr s, r)
          else if c = '-' || c = '+' || c = '.' || c.isDigit then
            (pyNumber (c :: rest)).map fun (lex, r) => (JVal.jnum lex, r)
          else none

/-- Parse a Python dict body after the opening brace (string keys only,
trailing comma allowed). -/
def parsePyDict : Nat → List Char → Option (JVal × List Char)
  | 0, _ => none
  | fuel + 1, cs =>
      match cs.dropWhile isPySpace with
      | '}' :: rest => some (JVal.jobj [], rest)
      | other => parsePyMembers fuel other []

/-- Parse the members of a non-empty Python dict literal. -/
def parsePyMembers : Nat → List Char → List (String × JVal) →
    Option (JVal × List Char)
  | 0, _, _ => none
  | fuel + 1, cs, acc =>
      match parsePyVal fuel cs with
      | some (JVal.jstr key, afterKey) =>
          match afterKey.dropWhile isPySpace with
          | ':' :: afterColon =>
              match parsePyVal fuel afterColon with
              | none => none
              | some (v, afterVal) =>
                  let acc' := objInsert acc key v
                  match afterVal.dropWhile isPySpace with
                  | ',' :: afterComma =>
                      match afterComma.dropWhile isPySpace with
                      | '}' :: afterBrace => some (JVal.jobj acc', afterBrace)
                      | _ => parsePyMembers fuel afterComma acc'
                  | '}' :: afterBrace => some (JVal.jobj acc', afterBrace)
                  | _ => none
          | _ => none
      | _ => none

/-- Parse a Python list body after the opening bracket
(trailing comma allowed). -/
def parsePyList : Nat → List Char → Option (JVal × List Char)
  | 0, _ => none
  | fuel + 1, cs =>
      match cs.dropWhile isPySpace with
      | ']' :: rest => some (JVal.jarr [], rest)
      | other => parsePyElems fuel other []

/-- Parse the elements of a non-empty Python list literal. -/
def parsePyElems : Nat → List Char → List JVal → Option (JVal × List Char)
  | 0, _, _ => none
  | fuel + 1, cs, acc =>
      match parsePyVal fuel cs with
      | none => none
      | some (v, afterVal) =>
          match afterVal.dropWhile isPySpace with
          | ',' :: afterComma =>
              match afterComma.dropWhile isPySpace with
              | ']' :: afterBracket => some (JVal.jarr (acc ++ [v]), afterBracket)
              | _ => parsePyElems fuel afterComma (acc ++ [v])
          | ']' :: afterBracket => some (JVal.jarr (acc ++ [v]), afterBracket)
          | _ => none

end

/-- Embedding of `ast.literal_eval` (fragment, see above): one literal,
surrounded only by whitespace. -/
def pyLiteralEval (cs : List Char) : Option JVal :=
  match parsePyVal (cs.length + 2) cs with
  | some (v, rest) => if (rest.dropWhile isPySpace).isEmpty then some v else none
  | none => none

/-- The `for candidate in (s4, s3, s2)` loop: the first candidate that
`literal_eval` turns into a dict. -/
def firstDictCandidate : List (List Char) → Option (List (String × JVal))
  | [] => none
  | c :: rest =>
      match pyLiteralEval c with
      | some (JVal.jobj m) => some m
      | _ => firstDictCandidate rest

/-- The argument of `coerce_json`, typed `Any` in the source: a dict, a
string, or any other value (carried as its `str(...)` rendering). -/
inductive CoerceInput where
  | pdict (fields : List (String × JVal)) : CoerceInput
  | pstr (s : String) : CoerceInput
  | pother (reprStr : String) : CoerceInput

/-- Embedding of `json_utils.coerce_json`: the full repair ladder. -/
def coerce_json : CoerceInput → JVal
  | .pdict m => JVal.jobj m
  | .pother r => JVal.jobj [("narration", JVal.jstr r)]
  | .pstr data =>
    let s := pyStrip data.data
    match jsonLoads s with
    | some v => v
    | none =>
      let s2 := extractBraced (stripCodeFences s)
      match jsonLoads s2 with
      | some v => v
      | none =>
        let s3a := keyQuoteSub s2.length s2
        let s3b := pyReplace s3a.length s3a "None".data "null".data
        let s3c := pyReplace s3b.length s3b "True".data "true".data
        let s3d := pyReplace s3c.length s3c "False".data "false".data
        let s3 := stripTrailingCommas s3d.length s3d
        match jsonLoads s3 with
        | some v => v
        | none =>
          let s4a := swapQuotes s3
          let s4 := stripTrailingCommas s4a.length s4a
          match jsonLoads s4 with
          | some v => v
          | none =>
            match firstDictCandidate [s4, s3, s2] with
            | some m => JVal.jobj m
            | none => JVal.jobj [("narration", JVal.jstr (String.mk (stripCodeFences s)))]

/-- A value is a mapping exactly when it is an object. -/
def isMapping : JVal → Bool
  | JVal.jobj _ => true
  | _ => false

/-! ## Events and the event bus (`core.py`) -/

/-- The closed set of event variants of `core.py`.  `playerUpdated` carries
the raw values of `pu.get(...)` (absent keys give `none`), and `turnDebug`
carries the debug-snapshot dictionary's five entries. -/
inductive Event where
  | message (text : String) (color : String := "white") (priority : String := "normal") : Event
  | spawnItem (name : String) : Event
  | spawnEnemy (name : String) : Event
  | layoutChanged (layout : List String) : Event
  | newRoom : Event
  | playerUpdated (health mana experience gold inventory : Option JVal) : Event
  | turnAdvanced (delta : Int := 1) : Event
  | turnDebug (narration : String) (actions : List String)
      (player_updates room_updates : Option JVal) (done : Bool) : Event
deriving Repr

/-- A handler, modelled by its observable outcome on each event: `true`
means it returns normally, `false` means it raises.  Internal side effects
of handlers are outside the bus contract. -/
def Handler := Event → Bool

/-- Embedding of `EventBus.subscribe`: append to the subscriber list. -/
def subscribe (subs : List Handler) (h : Handler) : List Handler :=
  subs ++ [h]

/-- Embedding of `EventBus.publish`'s `for h in list(self._subs): h(event)`
loop.  Returns the per-invocation outcomes, in invocation order (so its
length is the number of handlers actually invoked), and whether the loop
ran to completion; an uncaught handler exception ends the loop. -/
def publish (subs : List Handler) (e : Event) : List Bool × Bool :=
  match subs with
  | [] => ([], true)
  | h :: rest =>
      if h e then
        let (outcomes, ok) := publish rest e
        (true :: outcomes, ok)
      else ([false], false)

/-! ## The validated Turn record (`engine.py`) and the Translator (`story.py`) -/

/-- Embedding of `engine.Turn` (a pydantic model with `extra="allow"`):
typed fields plus the two untyped extra attributes the translator reads. -/
structure Turn where
  narration : String
  actions : List String := []
  memory : String := ""
  done : Bool := false
  items : List String := []
  enemies : List String := []
  special_features : List String := []
  player_updates : Option JVal := none
  room_updates : Option JVal := none

/-- Python truthiness of a JSON-shaped value. -/
def truthy : JVal → Bool
  | JVal.jnull => false
  | JVal.jbool b => b
  | JVal.jstr s => s ≠ ""
  | JVal.jarr xs => !xs.isEmpty
  | JVal.jobj kvs => !kvs.isEmpty
  | JVal.jnum lex =>
      let mantissa := (lex.data.dropWhile fun c => c = '-' || c = '+').takeWhile
        fun c => c ≠ 'e' && c ≠ 'E'
      !(mantissa.all fun c => c = '0' || c = '.')

/-- Python `dict.get` on an object's field list. -/
def dGet (fields : List (String × JVal)) (k : String) : Option JVal :=
  List.lookup k fields

/-- Embedding of `ru.get(key) or []`. -/
def pyOrEmptyList (v : Option JVal) : JVal :=
  match v with
  | none => JVal.jarr []
  | some x => if truthy x then x else JVal.jarr []

/-- Embedding of `v[:n]` followed by iteration: lists slice to their first
`n` elements, strings to their first `n` characters (each yielded as a
one-character string); slicing any other truthy value raises `TypeError`,
modelled as `none`. -/
def pySliceIter (v : JVal) (n : Nat) : Option (List JVal) :=
  match v with
  | JVal.jarr xs => some (xs.take n)
  | JVal.jstr s => some ((s.data.take n).map fun c => JVal.jstr (String.mk [c]))
  | _ => none

/-- The spawn-item events of the `for it in items[:10]` loop. -/
def spawnItemEvents (items : List JVal) : List Event :=
  items.filterMap fun v =>
    match v with
    | JVal.jstr s => some (Event.spawnItem s)
    | _ => none

/-- The spawn-enemy events of the `for en in enemies[:8]` loop. -/
def spawnEnemyEvents (enemies : List JVal) : List Event :=
  enemies.filterMap fun v =>
    match v with
    | JVal.jstr s => some (Event.spawnEnemy s)
    | _ => none

/-- The `isinstance(layout, list) and all(isinstance(r, str) for r in
layout)` test: the rows when every element is a string. -/
def allStringRows : List JVal → Option (List String)
  | [] => some []
  | JVal.jstr s :: rest => (allStringRows rest).map fun rs => s :: rs
  | _ => none

/-- The debug-snapshot event that `_turn_to_events` publishes first. -/
def dbgEvent (t : Turn) : Event :=
  Event.turnDebug t.narration t.actions t.player_updates t.room_updates t.done

/-- The suggestions line: `"Actions: " + ", ".join(list(turn.actions)[:5])`. -/
def actionsText (actions : List String) : String :=
  "Actions: " ++ String.intercalate ", " (actions.take 5)

/-- Embedding of `story.StorySystem._turn_to_events`, publishing into an
ordered list: each publish site contributes its (possibly conditional)
events in source order.  The optional file-logging block publishes nothing
and is omitted.  `none` models the `TypeError` that slicing a truthy
non-sequence `items`/`enemies` entry of `room_updates` would raise
mid-publish. -/
def turn_to_events (t : Turn) : Option (List Event) :=
  let evs : List Event := [dbgEvent t]
  let evs := evs ++
    (if t.narration ≠ "" then [Event.message t.narration "white"] else [])
  let evs := evs ++
    (if !t.actions.isEmpty then [Event.message (actionsText t.actions) "cyan"] else [])
  let evs := evs ++
    (match t.player_updates with
     | some (JVal.jobj pu) =>
         [Event.playerUpdated (dGet pu "health") (dGet pu "mana")
           (dGet pu "experience") (dGet pu "gold") (dGet pu "inventory")]
     | _ => [])
  match t.room_updates with
  | some (JVal.jobj ru) =>
      match pySliceIter (pyOrEmptyList (dGet ru "items")) 10 with
      | none => none
      | some items =>
          let evs := evs ++ spawnItemEvents items
          match pySliceIter (pyOrEmptyList (dGet ru "enemies")) 8 with
          | none => none
          | some enemies =>
              let evs := evs ++ spawnEnemyEvents enemies
              let evs := evs ++
                (match dGet ru "layout" with
                 | some (JVal.jarr rs) =>
                     match allStringRows rs with
                     | some rows => [Event.layoutChanged rows]
                     | none => []
                 | _ => [])
              let evs := evs ++
                (if truthy ((dGet ru "new_room").getD (JVal.jbool false)) then
                  [Event.newRoom] else [])
              let evs := evs ++
                (if t.done then [Event.message "The story concludes." "yellow"] else [])
              some (evs ++ [Event.turnAdvanced 1])
  | _ =>
      let evs := evs ++
        (if t.done then [Event.message "The story concludes." "yellow"] else [])
      some (evs ++ [Event.turnAdvanced 1])

/-! ## The dungeon simulation (`game_engine.py`) -/

/-- The cell kinds of `game_engine.CellType`. -/
inductive CellType where
  | EMPTY | WALL | FLOOR | DOOR | PLAYER | ENEMY | ITEM | TREASURE
  | STAIRS_DOWN | STAIRS_UP
deriving DecidableEq, Repr

/-- The four movement directions of `game_engine.Direction`. -/
inductive Direction where
  | UP | DOWN | LEFT | RIGHT
deriving DecidableEq, Repr

/-- `Direction.value`: the `(dy, dx)` unit vector of each direction. -/
def Direction.value : Direction → Int × Int
  | .UP => (-1, 0)
  | .DOWN => (1, 0)
  | .LEFT => (0, -1)
  | .RIGHT => (0, 1)

/-- Embedding of `game_engine.Entity` (a dataclass, so `==` compares all
fields; `List.erase` below therefore matches `list.remove`). -/
structure Entity where
  x : Int
  y : Int
  symbol : String
  color : String := "white"
  name : String := ""
  health : Int := 100
  max_health : Int := 100
  is_alive : Bool := true
deriving DecidableEq, Repr

instance : Inhabited Entity := ⟨{ x := 0, y := 0, symbol := "" }⟩

/-- Embedding of `game_engine.Item` (a dataclass). -/
structure Item where
  x : Int
  y : Int
  symbol : String
  name : String
  description : String
  value : Int := 0
deriving DecidableEq, Repr

/-- Embedding of `game_engine.VisualDungeon`'s state.  The Python `player`
attribute is an object reference into `entities`; it is modelled by the
index of that object in the list (aliasing becomes `List.set`). -/
structure VisualDungeon where
  width : Nat := 60
  height : Nat := 20
  grid : List (List CellType)
  entities : List Entity := []
  items : List Item := []
  player : Option Nat := none
  turn_count : Int := 0

/-- The grid is well formed when its dimensions agree with the `width` and
`height` fields, as every grid built by the source is. -/
def gridWF (d : VisualDungeon) : Prop :=
  d.grid.length = d.height ∧ ∀ row ∈ d.grid, row.length = d.width

/-- Read a grid cell (callers establish bounds before indexing, as the
source does). -/
def cellAt (d : VisualDungeon) (y x : Int) : CellType :=
  (d.grid.getD y.toNat []).getD x.toNat CellType.EMPTY

/-- Write a grid cell in place. -/
def setCell (g : List (List CellType)) (y x : Nat) (v : CellType) :
    List (List CellType) :=
  g.set y ((g.getD y []).set x v)

/-- The value of the `self.player` object, when present. -/
def playerVal (d : VisualDungeon) : Option Entity :=
  d.player.map fun p => d.entities.getD p default

/-- The `for other in self.entities` scan of `move_entity`: the index of
the first entity that compares unequal to the mover and sits at the
destination. -/
def findOtherAt : List Entity → Entity → Int → Int → Option Nat
  | [], _, _, _ => none
  | other :: rest, mover, nx, ny =>
      if (other != mover) && (other.x == nx) && (other.y == ny) then some 0
      else (findOtherAt rest mover nx ny).map (· + 1)

/-- Embedding of `VisualDungeon._combat` (named `Combat` because Lean
reserves a leading underscore here).  `dmg` stands for the
`random.randint(10, 25)` draw.  The defender is identified by its index
`k`; field mutation of the shared object becomes `List.set`, and
`self.entities.remove(defender)` is `List.erase` (first value-equal
element). -/
def Combat (d : VisualDungeon) (attacker : Entity) (k : Nat) (dmg : Int) :
    VisualDungeon :=
  let defender := d.entities.getD k default
  let hurt := { defender with health := defender.health - dmg }
  let entities := d.entities.set k hurt
  let _ := attacker
  if hurt.health ≤ 0 then
    let dead := { hurt with is_alive := false }
    let entities := entities.set k dead
    let entities := if dead ∈ entities then entities.erase dead else entities
    { d with entities := entities }
  else { d with entities := entities }

/-- Embedding of `VisualDungeon._check_item_pickup`: remove the first item
found at the cell (the loop breaks after one removal; `items.remove(item)`
erases the first value-equal item). -/
def check_item_pickup (d : VisualDungeon) (x y : Int) : VisualDungeon :=
  match d.items.find? fun it => (it.x == x) && (it.y == y) with
  | some it => { d with items := d.items.erase it }
  | none => d

/-- Embedding of `VisualDungeon.move_entity`.  The mover is the object at
index `i` of `entities`; `dmg` is the combat damage draw used if the move
bumps into an occupant.  Returns the Python boolean, the new dungeon state,
and the mover object's final value. -/
def move_entity (d : VisualDungeon) (i : Nat) (dir : Direction) (dmg : Int) :
    Bool × VisualDungeon × Entity :=
  let entity := d.entities.getD i default
  let (dy, dx) := dir.value
  let nx := entity.x + dx
  let ny := entity.y + dy
  if ¬(0 ≤ nx ∧ nx < (d.width : Int) ∧ 0 ≤ ny ∧ ny < (d.height : Int)) then
    (false, d, entity)
  else if cellAt d ny nx = CellType.WALL then
    (false, d, entity)
  else
    match findOtherAt d.entities entity nx ny with
    | some k =>
        let isPlayerMover := playerVal d == some entity
        let otherIsNotPlayer := playerVal d != some (d.entities.getD k default)
        let d' := if isPlayerMover && otherIsNotPlayer then Combat d entity k dmg else d
        (false, d', entity)
    | none =>
        let moved := { entity with x := nx, y := ny }
        let d' := { d with entities := d.entities.set i moved }
        let d' := if playerVal d' == some moved then check_item_pickup d' nx ny else d'
        (true, d', moved)

/-! ## Layout replacement (`enhanced_visual_game._apply_layout`) -/

/-- The glyph alphabet of `_apply_layout`: the five named glyphs, the
literal wall alias `#`, and floor for everything else. -/
def glyphCell (ch : Char) : CellType :=
  if ch = '█' then CellType.WALL
  else if ch = '.' then CellType.FLOOR
  else if ch = '+' then CellType.DOOR
  else if ch = '>' then CellType.STAIRS_DOWN
  else if ch = '<' then CellType.STAIRS_UP
  else if ch = '#' then CellType.WALL
  else CellType.FLOOR

/-- The inner `for x in range(min(len(row), self.dungeon.width))` loop,
writing the characters of (the width-clipped) `row` from column `x`
onwards. -/
def writeRowAux (y : Nat) : List (List CellType) → Nat → List Char →
    List (List CellType)
  | g, _, [] => g
  | g, x, c :: rest => writeRowAux y (setCell g y x (glyphCell c)) (x + 1) rest

/-- The outer `for y in range(height)` loop over the height-clipped rows. -/
def applyRowsAux (width : Nat) : List (List CellType) → Nat →
    List (List Char) → List (List CellType)
  | g, _, [] => g
  | g, y, r :: rs => applyRowsAux width (writeRowAux y g 0 (r.take width)) (y + 1) rs

/-- Embedding of `EnhancedVisualGame._apply_layout` (named without the
leading underscore): overwrite the grid cell by cell up to the smaller of
the supplied and existing dimensions.  The `width` local of the source is
computed but never used; it is reproduced here for fidelity. -/
def apply_layout (d : VisualDungeon) (layout : List String) : VisualDungeon :=
  let rows := layout.map String.data
  let _unusedWidth :=
    if !layout.isEmpty then
      min (((rows.map List.length).foldl max 0)) d.width
    else d.width
  { d with grid := applyRowsAux d.width d.grid 0 (rows.take d.height) }

/-! ## Game state and the Move command (`core.py`, `commands.py`) -/

/-- Embedding of `enhanced_visual_game.EnhancedPlayer` (the stats fields;
presentation-only members are omitted). -/
structure EnhancedPlayer where
  name : String
  role : String
  x : Int := 0
  y : Int := 0
  health : Int := 100
  max_health : Int := 100
  mana : Int := 50
  max_mana : Int := 50
  experience : Int := 0
  level : Int := 1
  gold : Int := 50
  inventory : List String := ["Health Potion", "Rusty Sword"]

/-- Embedding of `EnhancedPlayer.take_damage`: clamp health at zero and
report whether the player is still alive. -/
def take_damage (p : EnhancedPlayer) (amount : Int) : EnhancedPlayer × Bool :=
  let p' := { p with health := max 0 (p.health - amount) }
  (p', p'.health > 0)

/-- Embedding of `EnhancedPlayer.heal`: cap health at `max_health`. -/
def heal (p : EnhancedPlayer) (amount : Int) : EnhancedPlayer :=
  { p with health := min p.max_health (p.health + amount) }

/-- Embedding of `core.GameState`. -/
structure GameState where
  dungeon : VisualDungeon
  player : EnhancedPlayer
  turn_count : Int := 0

/-- Embedding of `GameState.advance_turn`. -/
def advance_turn (st : GameState) (n : Int) : GameState :=
  { st with turn_count := st.turn_count + n }

/-- Embedding of `commands.MoveCommand.execute`.  The dungeon's `player`
object is looked up first (`state.dungeon.player`); its absence would make
`move_entity` dereference `None`, modelled as `none`.  Returns the
published events in order together with the updated state. -/
def MoveCommand.execute (direction : Direction) (dmg : Int) (st : GameState) :
    Option (List Event × GameState) :=
  match st.dungeon.player with
  | none => none
  | some p =>
      let (moved, d', _) := move_entity st.dungeon p direction dmg
      let st := { st with dungeon := d' }
      if moved then
        some ([Event.turnAdvanced 1], advance_turn st 1)
      else
        some ([Event.message "Your way is blocked!" "yellow"], st)

/-! ## Claim C4 — event bus delivery -/

/-- A handler that raises on every event. -/
def raisingHandler : Handler := fun _ => false

/-- A handler that returns normally on every event. -/
def okHandler : Handler := fun _ => true

/-! ## Claims C2 and C5 — translator event order

The event stream of `_turn_to_events` decomposes into the fixed sequence of
sections the specification lists; the decomposition lemma below is shared
by the two translator claims. -/

/-- The narration-message section of the translator. -/
def narrationEvents (t : Turn) : List Event :=
  if t.narration ≠ "" then [Event.message t.narration "white"] else []

/-- The suggestions-message section of the translator. -/
def actionEvents (t : Turn) : List Event :=
  if !t.actions.isEmpty then [Event.message (actionsText t.actions) "cyan"] else []

/-- The player-stats section of the translator. -/
def playerUpdateEvents (t : Turn) : List Event :=
  match t.player_updates with
  | some (JVal.jobj pu) =>
      [Event.playerUpdated (dGet pu "health") (dGet pu "mana")
        (dGet pu "experience") (dGet pu "gold") (dGet pu "inventory")]
  | _ => []

/-- The layout-changed section of the room-updates block. -/
def layoutEvents (ru : List (String × JVal)) : List Event :=
  match dGet ru "layout" with
  | some (JVal.jarr rs) =>
      match allStringRows rs with
      | some rows => [Event.layoutChanged rows]
      | none => []
  | _ => []

/-- The new-room section of the room-updates block. -/
def newRoomEvents (ru : List (String × JVal)) : List Event :=
  if truthy ((dGet ru "new_room").getD (JVal.jbool false)) then [Event.newRoom] else []

/-- The whole room-updates section; `none` when slicing the `items` or
`enemies` entry raises. -/
def roomUpdateEvents (t : Turn) : Option (List Event) :=
  match t.room_updates with
  | some (JVal.jobj ru) =>
      (pySliceIter (pyOrEmptyList (dGet ru "items")) 10).bind fun items =>
        (pySliceIter (pyOrEmptyList (dGet ru "enemies")) 8).map fun enemies =>
          spawnItemEvents items ++ spawnEnemyEvents enemies ++
            layoutEvents ru ++ newRoomEvents ru
  | _ => some []

/-- The completion-message section of the translator. -/
def doneEvents (t : Turn) : List Event :=
  if t.done then [Event.message "The story concludes." "yellow"] else []

/-- A concrete Turn exercising every translator section. -/
def tC2 : Turn :=
  { narration := "A hall.", actions := ["look"], done := true
    player_updates := some (JVal.jobj [("health", JVal.jnum "9")])
    room_updates := some (JVal.jobj
      [("items", JVal.jarr [JVal.jstr "Key"]), ("new_room", JVal.jbool true)]) }

/-- The translator's output on `tC2`. -/
def evsC2 : List Event :=
  [dbgEvent tC2, Event.message "A hall." "white", Event.message "Actions: look" "cyan",
   Event.playerUpdated (some (JVal.jnum "9")) none none none none,
   Event.spawnItem "Key", Event.newRoom,
   Event.message "The story concludes." "yellow", Event.turnAdvanced 1]

/-! ## Claim C5 — relative order of NewRoom and LayoutChanged -/

/-- Whether an event is a layout change. -/
def isLayoutEvent : Event → Bool
  | Event.layoutChanged _ => true
  | _ => false

/-- Whether an event is a new-room event. -/
def isNewRoomEvent : Event → Bool
  | Event.newRoom => true
  | _ => false

/-- Whether an event is neither a layout change nor a new-room event. -/
def roomNeutral (e : Event) : Bool :=
  !(isLayoutEvent e) && !(isNewRoomEvent e)

/-- Whether some new-room event precedes every layout-changed event that a
new-room event is compared against — `true` iff the first of the two kinds
to occur is a new-room event and a layout change occurs after it. -/
def newRoomBeforeLayout : List Event → Bool
  | [] => false
  | Event.newRoom :: rest => rest.any isLayoutEvent
  | Event.layoutChanged _ :: _ => false
  | _ :: rest => newRoomBeforeLayout rest

/-- Whether the first of the two kinds to occur is a layout change with a
new-room event after it. -/
def layoutBeforeNewRoom : List Event → Bool
  | [] => false
  | Event.layoutChanged _ :: rest => rest.any isNewRoomEvent
  | Event.newRoom :: _ => false
  | _ :: rest => layoutBeforeNewRoom rest

/-- A Turn carrying a new-room flag and a 5-row layout replacement. -/
def turnC5 : Turn :=
  { narration := "You enter a new room."
    room_updates := some (JVal.jobj
      [("new_room", JVal.jbool true),
       ("layout", JVal.jarr [JVal.jstr "█████", JVal.jstr "█...█", JVal.jstr "█.>.█",
         JVal.jstr "█...█", JVal.jstr "█████"])]) }

/-- The translator's output on `turnC5`. -/
def evsC5 : List Event :=
  [dbgEvent turnC5, Event.message "You enter a new room." "white",
   Event.layoutChanged ["█████", "█...█", "█.>.█", "█...█", "█████"],
   Event.newRoom, Event.turnAdvanced 1]

/-! Helper lemmas for grid surgery (claims C7 and C3). -/

/-- Read a grid cell at natural coordinates. -/
def gridCell (g : List (List CellType)) (y x : Nat) : CellType :=
  (g.getD y []).getD x CellType.EMPTY

/-- The blocking condition of the specification: the destination cell is out
of bounds, a wall, or occupied by another entity. -/
def destBlocked (d : VisualDungeon) (i : Nat) (dir : Direction) : Prop :=
  ¬(0 ≤ (d.entities.getD i default).x + (dir.value).2 ∧
      (d.entities.getD i default).x + (dir.value).2 < (d.width : Int) ∧
      0 ≤ (d.entities.getD i default).y + (dir.value).1 ∧
      (d.entities.getD i default).y + (dir.value).1 < (d.height : Int)) ∨
  cellAt d ((d.entities.getD i default).y + (dir.value).1)
    ((d.entities.getD i default).x + (dir.value).2) = CellType.WALL ∨
  ∃ k, k < d.entities.length ∧ k ≠ i ∧
    (d.entities.getD k default).x = (d.entities.getD i default).x + (dir.value).2 ∧
    (d.entities.getD k default).y = (d.entities.getD i default).y + (dir.value).1

/-- A concrete 3-by-3 dungeon: the player at (1,1) with a wall to the left
and above, a goblin to the right. -/
def dC3 : VisualDungeon :=
  { width := 3, height := 3
    grid := [[CellType.WALL, CellType.WALL, CellType.WALL],
             [CellType.WALL, CellType.FLOOR, CellType.FLOOR],
             [CellType.WALL, CellType.FLOOR, CellType.WALL]]
    entities := [{ x := 1, y := 1, symbol := "@", color := "yellow", name := "Player",
                   health := 100, max_health := 100 },
                 { x := 2, y := 1, symbol := "E", color := "red", name := "Goblin",
                   health := 12, max_health := 12 }]
    player := some 0 }

/-- A dungeon with a player and a 12-health goblin, for the combat witness. -/
def dC6 : VisualDungeon :=
  { grid := []
    entities := [{ x := 1, y := 1, symbol := "@", name := "Player" },
                 { x := 2, y := 1, symbol := "E", color := "red", name := "Goblin",
                   health := 12, max_health := 12 }] }

/-- The game state for the Move-command witness: the player at (1,1) of
`dC3`, turn counter at 7. -/
def stC8 : GameState :=
  { dungeon := dC3, player := { name := "P", role := "knight" }, turn_count := 7 }

/-- A concrete 2-by-2 dungeon for the layout witness. -/
def dC7 : VisualDungeon :=
  { width := 2, height := 2
    grid := [[CellType.FLOOR, CellType.FLOOR], [CellType.FLOOR, CellType.FLOOR]] }

/-! ## Theorems -/

/-! ## Claim C1 — Coercion output shape -/

/-- C1: on the input `"[1, 2]"` — a valid JSON text that does not encode an
object — `coerce_json` returns the decoded JSON array itself, which is not
a mapping.  This contradicts the claim (and the function's own
`-> Dict[str, Any]` annotation and docstring): the strict-parse rungs
return `json.loads`' result without checking that it is a dict, unlike the
`literal_eval` rung which does check `isinstance(obj, dict)`. -/
theorem coerce_json_list_escapes :
    coerce_json (.pstr "[1, 2]") = JVal.jarr [JVal.jnum "1", JVal.jnum "2"] ∧
    isMapping (coerce_json (.pstr "[1, 2]")) = false := by
  exact ⟨rfl, rfl⟩

/-! ## Claim C9 — round trip for well-formed JSON objects -/

/-- C9: a string whose (stripped) text is a well-formed JSON object is
returned by `coerce_json` as exactly the mapping it encodes: the first rung
of the ladder is a strict parse of the stripped input and its result is
returned as-is. -/
theorem coerce_json_object_roundtrip (s : String) (m : List (String × JVal))
    (h : jsonLoads (pyStrip s.data) = some (JVal.jobj m)) :
    coerce_json (.pstr s) = JVal.jobj m := by
  simp only [coerce_json, h]

/-- Witness for C9 at the input `{"a": 1}`. -/
theorem coerce_json_object_roundtrip_witness :
    jsonLoads (pyStrip "\x7b\"a\": 1\x7d".data) =
      some (JVal.jobj [("a", JVal.jnum "1")]) ∧
    coerce_json (.pstr "\x7b\"a\": 1\x7d") = JVal.jobj [("a", JVal.jnum "1")] :=
  ⟨rfl, coerce_json_object_roundtrip _ _ rfl⟩

/-! ## Claim C10 — player health bounds -/

/-- C10: with health inside `[0, max_health]`, a non-negative damage amount
leaves health clamped inside `[0, max_health]` and `take_damage` returns
`true` exactly when the resulting health is strictly positive; a
non-negative heal amount never raises health above `max_health` and keeps
it non-negative. -/
theorem player_health_bounds (p : EnhancedPlayer) (dmgAmt healAmt : Int)
    (h0 : 0 ≤ p.health) (h1 : p.health ≤ p.max_health)
    (hd : 0 ≤ dmgAmt) (hh : 0 ≤ healAmt) :
    (0 ≤ (take_damage p dmgAmt).1.health ∧
      (take_damage p dmgAmt).1.health ≤ p.max_health) ∧
    ((take_damage p dmgAmt).2 = true ↔ 0 < (take_damage p dmgAmt).1.health) ∧
    (0 ≤ (heal p healAmt).health ∧ (heal p healAmt).health ≤ p.max_health) := by
  simp [take_damage, heal]
  omega

/-- Witness for C10 at a concrete player and amounts. -/
theorem player_health_bounds_witness :
    let p : EnhancedPlayer := { name := "P", role := "knight", health := 40 }
    (0 ≤ p.health ∧ p.health ≤ p.max_health) ∧
    (0 ≤ (take_damage p 55).1.health ∧ (take_damage p 55).1.health ≤ p.max_health) ∧
    ((take_damage p 55).2 = true ↔ 0 < (take_damage p 55).1.health) ∧
    (0 ≤ (heal p 80).health ∧ (heal p 80).health ≤ p.max_health) :=
  ⟨⟨by decide, by decide⟩,
    (player_health_bounds _ 55 80 (by decide) (by decide) (by decide) (by decide)).1,
    (player_health_bounds _ 55 80 (by decide) (by decide) (by decide) (by decide)).2.1,
    (player_health_bounds _ 55 80 (by decide) (by decide) (by decide) (by decide)).2.2⟩

/-- C4 counterexample: with a raising handler registered before a normal
one, `publish` invokes only the first handler — the exception aborts
delivery to the second (there is no try/except in `EventBus.publish`), so
the claim's isolation property is false. -/
theorem publish_abort_counterexample :
    publish [raisingHandler, okHandler] (Event.message "hello" "white" "normal") =
      ([false], false) ∧
    (publish [raisingHandler, okHandler]
        (Event.message "hello" "white" "normal")).1.length = 1 ∧
    ([raisingHandler, okHandler] : List Handler).length = 2 :=
  ⟨rfl, rfl, rfl⟩

/-- C4 amended: `publish` invokes the registered handlers in registration
order against the subscriber list as it stands at the moment of publish,
and runs to completion exactly when no handler raises; a handler that
raises ends delivery there, so the handlers invoked are the
normally-returning prefix plus the first raising handler. -/
theorem publish_delivery_characterisation (subs : List Handler) (e : Event) :
    publish subs e =
      ((subs.takeWhile fun h => h e).map (fun _ => true) ++
        ((subs.dropWhile fun h => h e).take 1).map (fun _ => false),
       subs.all fun h => h e) := by
  induction subs with
  | nil => rfl
  | cons h t ih =>
      by_cases hh : h e = true <;>
        simp [publish, hh, ih, List.takeWhile_cons, List.dropWhile_cons]

theorem ite_append_right (c : Prop) [Decidable c] (xs ys : List Event) :
    (if c then xs ++ ys else xs) = xs ++ (if c then ys else []) := by
  split <;> simp

/-- Decomposition of the translator's output into its ordered sections. -/
theorem turn_to_events_decomposition (t : Turn) :
    turn_to_events t = (roomUpdateEvents t).map fun revs =>
      dbgEvent t :: (narrationEvents t ++ actionEvents t ++ playerUpdateEvents t ++
        revs ++ doneEvents t ++ [Event.turnAdvanced 1]) := by
  simp only [turn_to_events, roomUpdateEvents, narrationEvents, actionEvents,
    playerUpdateEvents, layoutEvents, newRoomEvents, doneEvents]
  rcases t.room_updates with _ | rv
  · simp [List.append_assoc]
  · cases rv <;> try simp [List.append_assoc]
    rename_i ru
    rcases pySliceIter (pyOrEmptyList (dGet ru "items")) 10 with _ | items
    · simp
    · rcases pySliceIter (pyOrEmptyList (dGet ru "enemies")) 8 with _ | enemies
      · simp
      · simp [List.append_assoc]

/-- C2: for every Turn whose translation completes, the event stream is the
debug snapshot first, then — in the specification's fixed order — the
narration message, the suggestions message, the player-stats update, the
room-updates section (spawned items, then enemies, then layout change,
then new room), the completion message, and a turn-advanced event with
delta 1, unconditionally last. -/
theorem translator_event_order (t : Turn) (evs revs : List Event)
    (h : turn_to_events t = some evs) (hr : roomUpdateEvents t = some revs) :
    evs = dbgEvent t :: (narrationEvents t ++ actionEvents t ++ playerUpdateEvents t ++
      revs ++ doneEvents t ++ [Event.turnAdvanced 1]) ∧
    evs.head? = some (dbgEvent t) ∧
    evs.getLast? = some (Event.turnAdvanced 1) := by
  have hd := turn_to_events_decomposition t
  rw [h, hr] at hd
  simp only [Option.map_some'] at hd
  rw [Option.some_inj] at hd
  subst hd
  refine ⟨rfl, rfl, ?_⟩
  rw [show dbgEvent t :: (narrationEvents t ++ actionEvents t ++ playerUpdateEvents t ++
      revs ++ doneEvents t ++ [Event.turnAdvanced 1]) =
    (dbgEvent t :: (narrationEvents t ++ actionEvents t ++ playerUpdateEvents t ++
      revs ++ doneEvents t)) ++ [Event.turnAdvanced 1] by simp [List.append_assoc]]
  exact List.getLast?_concat _

/-- Witness for C2 at the Turn `tC2`. -/
theorem translator_event_order_witness :
    turn_to_events tC2 = some evsC2 ∧
    roomUpdateEvents tC2 = some [Event.spawnItem "Key", Event.newRoom] ∧
    (evsC2 = dbgEvent tC2 :: (narrationEvents tC2 ++ actionEvents tC2 ++
        playerUpdateEvents tC2 ++ [Event.spawnItem "Key", Event.newRoom] ++
        doneEvents tC2 ++ [Event.turnAdvanced 1]) ∧
      evsC2.head? = some (dbgEvent tC2) ∧
      evsC2.getLast? = some (Event.turnAdvanced 1)) :=
  ⟨rfl, rfl, translator_event_order tC2 evsC2 [Event.spawnItem "Key", Event.newRoom] rfl rfl⟩

/-- C5 counterexample: on a Turn with `new_room = true` and a 5-row layout,
the translator publishes LayoutChanged *before* NewRoom — the claim's
stated relative order (NewRoom before LayoutChanged) is false. -/
theorem new_room_before_layout_counterexample :
    turn_to_events turnC5 = some evsC5 ∧
    newRoomBeforeLayout evsC5 = false ∧
    layoutBeforeNewRoom evsC5 = true :=
  ⟨rfl, rfl, rfl⟩

theorem narrationEvents_neutral (t : Turn) : ∀ e ∈ narrationEvents t, roomNeutral e = true := by
  unfold narrationEvents
  split <;> simp [roomNeutral, isLayoutEvent, isNewRoomEvent]

theorem actionEvents_neutral (t : Turn) : ∀ e ∈ actionEvents t, roomNeutral e = true := by
  unfold actionEvents
  split <;> simp [roomNeutral, isLayoutEvent, isNewRoomEvent]

theorem playerUpdateEvents_neutral (t : Turn) :
    ∀ e ∈ playerUpdateEvents t, roomNeutral e = true := by
  unfold playerUpdateEvents
  split <;> simp [roomNeutral, isLayoutEvent, isNewRoomEvent]

theorem doneEvents_neutral (t : Turn) : ∀ e ∈ doneEvents t, roomNeutral e = true := by
  unfold doneEvents
  split <;> simp [roomNeutral, isLayoutEvent, isNewRoomEvent]

theorem spawnItemEvents_neutral (items : List JVal) :
    ∀ e ∈ spawnItemEvents items, roomNeutral e = true := by
  intro e he
  simp only [spawnItemEvents, List.mem_filterMap] at he
  obtain ⟨v, -, hv⟩ := he
  cases v <;> simp only [Option.some_inj, reduceCtorEq] at hv
  subst hv
  simp [roomNeutral, isLayoutEvent, isNewRoomEvent]

theorem spawnEnemyEvents_neutral (enemies : List JVal) :
    ∀ e ∈ spawnEnemyEvents enemies, roomNeutral e = true := by
  intro e he
  simp only [spawnEnemyEvents, List.mem_filterMap] at he
  obtain ⟨v, -, hv⟩ := he
  cases v <;> simp only [Option.some_inj, reduceCtorEq] at hv
  subst hv
  simp [roomNeutral, isLayoutEvent, isNewRoomEvent]

/-- A room-neutral prefix does not affect `layoutBeforeNewRoom`. -/
theorem layoutBeforeNewRoom_append (P l : List Event)
    (hP : ∀ e ∈ P, roomNeutral e = true) :
    layoutBeforeNewRoom (P ++ l) = layoutBeforeNewRoom l := by
  induction P with
  | nil => rfl
  | cons e rest ih =>
      have he := hP e (by simp)
      have hrest : ∀ x ∈ rest, roomNeutral x = true := fun x hx => hP x (by simp [hx])
      cases e <;> simp_all [roomNeutral, isLayoutEvent, isNewRoomEvent,
        layoutBeforeNewRoom]

/-- C5 amended: a Turn whose `room_updates` has a truthy `new_room` flag and
a 5-row all-strings layout yields, when translation completes, exactly one
LayoutChanged event and exactly one NewRoom event, with the LayoutChanged
event *before* the NewRoom event, and a TurnAdvanced(1) event last. -/
theorem layout_then_new_room (t : Turn) (ru : List (String × JVal)) (rows : List JVal)
    (srows : List String) (evs : List Event)
    (hru : t.room_updates = some (JVal.jobj ru))
    (hlay : dGet ru "layout" = some (JVal.jarr rows))
    (hstr : allStringRows rows = some srows)
    (hlen : rows.length = 5)
    (hnew : truthy ((dGet ru "new_room").getD (JVal.jbool false)) = true)
    (h : turn_to_events t = some evs) :
    evs.countP isLayoutEvent = 1 ∧ evs.countP isNewRoomEvent = 1 ∧
    layoutBeforeNewRoom evs = true ∧ evs.getLast? = some (Event.turnAdvanced 1) := by
  have hd := turn_to_events_decomposition t
  rw [h] at hd
  rcases hrev : roomUpdateEvents t with _ | revs
  · rw [hrev] at hd; simp at hd
  · rw [hrev] at hd
    simp only [Option.map_some'] at hd
    rw [Option.some_inj] at hd
    simp only [roomUpdateEvents, hru] at hrev
    rcases hi : pySliceIter (pyOrEmptyList (dGet ru "items")) 10 with _ | items
    · rw [hi] at hrev; simp at hrev
    · rw [hi] at hrev
      rcases he : pySliceIter (pyOrEmptyList (dGet ru "enemies")) 8 with _ | enemies
      · rw [he] at hrev; simp at hrev
      · rw [he] at hrev
        simp only [Option.some_bind, Option.map_some'] at hrev
        rw [Option.some_inj] at hrev
        have hlayE : layoutEvents ru = [Event.layoutChanged srows] := by
          simp [layoutEvents, hlay, hstr]
        have hnewE : newRoomEvents ru = [Event.newRoom] := by
          simp [newRoomEvents, hnew]
        subst hd
        rw [← hrev, hlayE, hnewE]
        have hneutral : ∀ e ∈ dbgEvent t :: (narrationEvents t ++ actionEvents t ++
            playerUpdateEvents t ++ spawnItemEvents items ++ spawnEnemyEvents enemies),
            roomNeutral e = true := by
          intro e hmem
          simp only [List.mem_cons, List.mem_append] at hmem
          rcases hmem with rfl | ((((hm | hm) | hm) | hm) | hm)
          · simp [dbgEvent, roomNeutral, isLayoutEvent, isNewRoomEvent]
          · exact narrationEvents_neutral t e hm
          · exact actionEvents_neutral t e hm
          · exact playerUpdateEvents_neutral t e hm
          · exact spawnItemEvents_neutral items e hm
          · exact spawnEnemyEvents_neutral enemies e hm
        have hflat : dbgEvent t :: (narrationEvents t ++ actionEvents t ++
            playerUpdateEvents t ++ (spawnItemEvents items ++ spawnEnemyEvents enemies ++
              [Event.layoutChanged srows] ++ [Event.newRoom]) ++ doneEvents t ++
            [Event.turnAdvanced 1]) =
            (dbgEvent t :: (narrationEvents t ++ actionEvents t ++ playerUpdateEvents t ++
              spawnItemEvents items ++ spawnEnemyEvents enemies)) ++
              (Event.layoutChanged srows :: Event.newRoom ::
                (doneEvents t ++ [Event.turnAdvanced 1])) := by
          simp [List.append_assoc]
        rw [hflat]
        have hcount : ∀ p : Event → Bool,
            ((dbgEvent t :: (narrationEvents t ++ actionEvents t ++ playerUpdateEvents t ++
              spawnItemEvents items ++ spawnEnemyEvents enemies)) ++
              (Event.layoutChanged srows :: Event.newRoom ::
                (doneEvents t ++ [Event.turnAdvanced 1]))).countP p =
            (dbgEvent t :: (narrationEvents t ++ actionEvents t ++ playerUpdateEvents t ++
              spawnItemEvents items ++ spawnEnemyEvents enemies)).countP p +
            (Event.layoutChanged srows :: Event.newRoom ::
              (doneEvents t ++ [Event.turnAdvanced 1])).countP p :=
          fun p => List.countP_append p _ _
        have hzeroL : (dbgEvent t :: (narrationEvents t ++ actionEvents t ++
            playerUpdateEvents t ++ spawnItemEvents items ++
            spawnEnemyEvents enemies)).countP isLayoutEvent = 0 := by
          rw [List.countP_eq_zero]
          intro a ha
          have := hneutral a ha
          simp only [roomNeutral, Bool.and_eq_true, Bool.not_eq_true'] at this
          simp [this.1]
        have hzeroN : (dbgEvent t :: (narrationEvents t ++ actionEvents t ++
            playerUpdateEvents t ++ spawnItemEvents items ++
            spawnEnemyEvents enemies)).countP isNewRoomEvent = 0 := by
          rw [List.countP_eq_zero]
          intro a ha
          have := hneutral a ha
          simp only [roomNeutral, Bool.and_eq_true, Bool.not_eq_true'] at this
          simp [this.2]
        have hzeroD : ∀ p : Event → Bool, (∀ e ∈ doneEvents t, roomNeutral e = true) →
            True := fun _ _ => trivial
        refine ⟨?_, ?_, ?_, ?_⟩
        · rw [hcount, hzeroL]
          have : (doneEvents t ++ [Event.turnAdvanced 1]).countP isLayoutEvent = 0 := by
            rw [List.countP_eq_zero]
            intro a ha
            simp only [List.mem_append, List.mem_singleton] at ha
            rcases ha with ha | rfl
            · have := doneEvents_neutral t a ha
              simp only [roomNeutral, Bool.and_eq_true, Bool.not_eq_true'] at this
              simp [this.1]
            · simp [isLayoutEvent]
          simp [List.countP_cons, this, isLayoutEvent, isNewRoomEvent]
        · rw [hcount, hzeroN]
          have : (doneEvents t ++ [Event.turnAdvanced 1]).countP isNewRoomEvent = 0 := by
            rw [List.countP_eq_zero]
            intro a ha
            simp only [List.mem_append, List.mem_singleton] at ha
            rcases ha with ha | rfl
            · have := doneEvents_neutral t a ha
              simp only [roomNeutral, Bool.and_eq_true, Bool.not_eq_true'] at this
              simp [this.2]
            · simp [isNewRoomEvent]
          simp [List.countP_cons, this, isLayoutEvent, isNewRoomEvent]
        · rw [layoutBeforeNewRoom_append _ _ hneutral]
          simp [layoutBeforeNewRoom, isNewRoomEvent]
        · rw [show (dbgEvent t :: (narrationEvents t ++ actionEvents t ++
              playerUpdateEvents t ++ spawnItemEvents items ++ spawnEnemyEvents enemies)) ++
              (Event.layoutChanged srows :: Event.newRoom ::
                (doneEvents t ++ [Event.turnAdvanced 1])) =
              ((dbgEvent t :: (narrationEvents t ++ actionEvents t ++ playerUpdateEvents t ++
                spawnItemEvents items ++ spawnEnemyEvents enemies)) ++
                (Event.layoutChanged srows :: Event.newRoom :: doneEvents t)) ++
                [Event.turnAdvanced 1] by simp [List.append_assoc]]
          exact List.getLast?_concat _

theorem getD_set_eq_ite {α : Type} (l : List α) (i j : Nat) (v d : α) :
    (l.set i v).getD j d = if i = j ∧ i < l.length then v else l.getD j d := by
  induction l generalizing i j with
  | nil => simp
  | cons a t ih =>
      cases i with
      | zero =>
          cases j with
          | zero => simp
          | succ j => simp
      | succ i =>
          cases j with
          | zero => simp
          | succ j =>
              simp only [List.set_cons_succ, List.getD_cons_succ, List.length_cons]
              rw [ih]
              by_cases h : i = j ∧ i < t.length
              · rw [if_pos h, if_pos ⟨by omega, by omega⟩]
              · rw [if_neg h, if_neg (by omega)]

theorem gridCell_setCell (g : List (List CellType)) (y x y' x' : Nat) (v : CellType) :
    gridCell (setCell g y x v) y' x' =
      if y = y' ∧ x = x' ∧ y < g.length ∧ x < (g.getD y []).length then v
      else gridCell g y' x' := by
  unfold gridCell setCell
  rw [getD_set_eq_ite]
  by_cases hy : y = y' ∧ y < g.length
  · obtain ⟨rfl, hl⟩ := hy
    rw [if_pos ⟨rfl, hl⟩, getD_set_eq_ite]
    by_cases hx : x = x' ∧ x < (g.getD y []).length
    · rw [if_pos hx, if_pos ⟨rfl, hx.1, hl, hx.2⟩]
    · rw [if_neg hx, if_neg fun hc => hx ⟨hc.2.1, hc.2.2.2⟩]
  · rw [if_neg hy, if_neg fun hc => hy ⟨hc.1, hc.2.2.1⟩]

theorem length_writeRowAux (y : Nat) (row : List Char) (g : List (List CellType))
    (x0 : Nat) : (writeRowAux y g x0 row).length = g.length := by
  induction row generalizing g x0 with
  | nil => rfl
  | cons c rest ih => simp [writeRowAux, ih, setCell]

theorem rowlen_writeRowAux (y : Nat) (row : List Char) (g : List (List CellType))
    (x0 y'' : Nat) :
    ((writeRowAux y g x0 row).getD y'' []).length = (g.getD y'' []).length := by
  induction row generalizing g x0 with
  | nil => rfl
  | cons c rest ih =>
      rw [writeRowAux, ih]
      unfold setCell
      rw [getD_set_eq_ite]
      split_ifs with h
      · obtain ⟨rfl, -⟩ := h
        simp
      · rfl

theorem writeRowAux_other_row (y : Nat) (row : List Char) (g : List (List CellType))
    (x0 y' x' : Nat) (hne : y ≠ y') :
    gridCell (writeRowAux y g x0 row) y' x' = gridCell g y' x' := by
  induction row generalizing g x0 with
  | nil => rfl
  | cons c rest ih =>
      rw [writeRowAux, ih, gridCell_setCell, if_neg fun hc => hne hc.1]

theorem writeRowAux_frame (y : Nat) (row : List Char) (g : List (List CellType))
    (x0 x' : Nat)
    (hout : x' < x0 ∨ x0 + row.length ≤ x' ∨ ¬y < g.length ∨
      ¬x' < (g.getD y []).length) :
    gridCell (writeRowAux y g x0 row) y x' = gridCell g y x' := by
  induction row generalizing g x0 with
  | nil => rfl
  | cons c rest ih =>
      rw [writeRowAux]
      have hglen : (setCell g y x0 (glyphCell c)).length = g.length := by simp [setCell]
      have hrlen : ∀ y'', ((setCell g y x0 (glyphCell c)).getD y'' []).length =
          (g.getD y'' []).length := by
        intro y''
        unfold setCell
        rw [getD_set_eq_ite]
        split_ifs with h
        · obtain ⟨rfl, -⟩ := h
          simp
        · rfl
      have hstep : gridCell (writeRowAux y (setCell g y x0 (glyphCell c)) (x0 + 1) rest)
          y x' = gridCell (setCell g y x0 (glyphCell c)) y x' := by
        apply ih
        rw [hglen, hrlen]
        rcases hout with h | h | h | h
        · exact Or.inl (by omega)
        · refine Or.inr (Or.inl ?_)
          simp only [List.length_cons] at h
          omega
        · exact Or.inr (Or.inr (Or.inl h))
        · exact Or.inr (Or.inr (Or.inr h))
      rw [hstep, gridCell_setCell]
      rw [if_neg ?_]
      rintro ⟨-, rfl, hyl, hxl⟩
      rcases hout with h | h | h | h
      · omega
      · simp only [List.length_cons] at h
        omega
      · exact h hyl
      · exact h hxl

theorem writeRowAux_written (y : Nat) (row : List Char) (g : List (List CellType))
    (x0 x' : Nat) (h0 : x0 ≤ x') (h1 : x' < x0 + row.length)
    (hy : y < g.length) (hx : x' < (g.getD y []).length) :
    gridCell (writeRowAux y g x0 row) y x' = glyphCell (row.getD (x' - x0) ' ') := by
  induction row generalizing g x0 with
  | nil =>
      simp only [List.length_nil] at h1
      omega
  | cons c rest ih =>
      rw [writeRowAux]
      have hglen : (setCell g y x0 (glyphCell c)).length = g.length := by simp [setCell]
      have hrlen : ((setCell g y x0 (glyphCell c)).getD y []).length =
          (g.getD y []).length := by
        unfold setCell
        rw [getD_set_eq_ite]
        split_ifs with h
        · simp
        · rfl
      by_cases hx0 : x' = x0
      · subst hx0
        rw [writeRowAux_frame _ _ _ _ _ (Or.inl (by omega)), gridCell_setCell,
          if_pos ⟨rfl, rfl, hy, hx⟩]
        simp
      · rw [ih _ (x0 + 1) (by omega) (by simp at h1 ⊢; omega) (by rw [hglen]; exact hy)
          (by rw [hrlen]; exact hx)]
        have hidx : x' - x0 = (x' - (x0 + 1)) + 1 := by omega
        rw [hidx]
        rfl

theorem length_applyRowsAux (w : Nat) (rows : List (List Char))
    (g : List (List CellType)) (y0 : Nat) :
    (applyRowsAux w g y0 rows).length = g.length := by
  induction rows generalizing g y0 with
  | nil => rfl
  | cons r rs ih => rw [applyRowsAux, ih, length_writeRowAux]

theorem rowlen_applyRowsAux (w : Nat) (rows : List (List Char))
    (g : List (List CellType)) (y0 y'' : Nat) :
    ((applyRowsAux w g y0 rows).getD y'' []).length = (g.getD y'' []).length := by
  induction rows generalizing g y0 with
  | nil => rfl
  | cons r rs ih => rw [applyRowsAux, ih, rowlen_writeRowAux]

theorem applyRowsAux_frame (w : Nat) (rows : List (List Char))
    (g : List (List CellType)) (y0 y' x' : Nat)
    (hout : y' < y0 ∨ y0 + rows.length ≤ y') :
    gridCell (applyRowsAux w g y0 rows) y' x' = gridCell g y' x' := by
  induction rows generalizing g y0 with
  | nil => rfl
  | cons r rs ih =>
      rw [applyRowsAux, ih _ _ (by simp only [List.length_cons] at hout ⊢; omega),
        writeRowAux_other_row _ _ _ _ _ _
          (by simp only [List.length_cons] at hout; omega)]

theorem applyRowsAux_row (w : Nat) (rows : List (List Char))
    (g : List (List CellType)) (y0 y' x' : Nat)
    (h0 : y0 ≤ y') (h1 : y' < y0 + rows.length) :
    gridCell (applyRowsAux w g y0 rows) y' x' =
      if x' < ((rows.getD (y' - y0) []).take w).length ∧ y' < g.length ∧
          x' < (g.getD y' []).length
      then glyphCell ((rows.getD (y' - y0) []).getD x' ' ')
      else gridCell g y' x' := by
  induction rows generalizing g y0 with
  | nil =>
      simp only [List.length_nil] at h1
      omega
  | cons r rs ih =>
      rw [applyRowsAux]
      by_cases hy0 : y' = y0
      · subst hy0
        rw [applyRowsAux_frame _ _ _ _ _ _ (Or.inl (by omega))]
        simp only [Nat.sub_self, List.getD_cons_zero]
        by_cases hc : x' < (r.take w).length ∧ y' < g.length ∧ x' < (g.getD y' []).length
        · obtain ⟨hc1, hc2, hc3⟩ := hc
          rw [if_pos ⟨hc1, hc2, hc3⟩,
            writeRowAux_written _ _ _ _ _ (Nat.zero_le _) (by simpa using hc1) hc2 hc3]
          congr 1
          simp only [Nat.sub_zero]
          have : x' < w := by
            have := hc1
            simp [List.length_take] at this
            omega
          rw [List.getD_eq_getElem?_getD, List.getD_eq_getElem?_getD,
            List.getElem?_take, if_pos this]
        · rw [if_neg hc, writeRowAux_frame]
          push_neg at hc
          by_cases hc1 : x' < (r.take w).length
          · by_cases hc2 : y' < g.length
            · exact Or.inr (Or.inr (Or.inr (by simpa using hc hc1 hc2)))
            · exact Or.inr (Or.inr (Or.inl hc2))
          · exact Or.inr (Or.inl (by simp only [List.length_take] at hc1 ⊢; omega))
      · have hgt : y0 + 1 ≤ y' := by omega
        rw [ih _ (y0 + 1) hgt (by simp only [List.length_cons] at h1; omega),
          length_writeRowAux, rowlen_writeRowAux]
        have hidx : y' - y0 = (y' - (y0 + 1)) + 1 := by omega
        rw [hidx]
        simp only [List.getD_cons_succ]
        rw [writeRowAux_other_row _ _ _ _ _ _ (by omega)]

/-- C7: replacing the layout overwrites exactly the grid cells covered by
the supplied rows, clipped to the grid's dimensions: inside the clip the
new cell is the glyph decoding of the supplied character, outside it the
old cell is kept; the glyph alphabet maps `█`/`.`/`+`/`>`/`<` to
wall/floor/door/stairs-down/stairs-up, the literal alias `#` to wall, and
every other character to floor. -/
theorem apply_layout_cells (d : VisualDungeon) (layout : List String) (y x : Nat)
    (hwf : gridWF d) (hy : y < d.height) (hx : x < d.width) :
    (gridCell (apply_layout d layout).grid y x =
      if y < layout.length ∧ x < ((layout.map String.data).getD y []).length
      then glyphCell (((layout.map String.data).getD y []).getD x ' ')
      else gridCell d.grid y x) ∧
    glyphCell '█' = CellType.WALL ∧ glyphCell '.' = CellType.FLOOR ∧
    glyphCell '+' = CellType.DOOR ∧ glyphCell '>' = CellType.STAIRS_DOWN ∧
    glyphCell '<' = CellType.STAIRS_UP ∧ glyphCell '#' = CellType.WALL ∧
    (∀ c : Char, c ∉ (['█', '.', '+', '>', '<', '#'] : List Char) →
      glyphCell c = CellType.FLOOR) := by
  obtain ⟨hlen, hrowlen⟩ := hwf
  refine ⟨?_, rfl, rfl, rfl, rfl, rfl, rfl, ?_⟩
  · have hgrow : (d.grid.getD y []).length = d.width := by
      have hy2 : y < d.grid.length := by omega
      have hmem : d.grid.getD y [] ∈ d.grid := by
        rw [List.getD_eq_getElem?_getD, List.getElem?_eq_getElem hy2]
        exact List.getElem_mem hy2
      exact hrowlen _ hmem
    show gridCell (applyRowsAux d.width d.grid 0
        ((layout.map String.data).take d.height)) y x = _
    have hrowslen : ((layout.map String.data).take d.height).length =
        min d.height layout.length := by simp [List.length_take]
    by_cases hcase : y < layout.length ∧ x < ((layout.map String.data).getD y []).length
    · obtain ⟨hc1, hc2⟩ := hcase
      have hylt : y < 0 + ((layout.map String.data).take d.height).length := by
        rw [hrowslen]; omega
      rw [applyRowsAux_row _ _ _ _ _ _ (Nat.zero_le _) hylt]
      have htake : ((layout.map String.data).take d.height).getD (y - 0) [] =
          (layout.map String.data).getD y [] := by
        rw [Nat.sub_zero, List.getD_eq_getElem?_getD, List.getD_eq_getElem?_getD,
          List.getElem?_take, if_pos hy]
      rw [htake, if_pos ⟨by simp only [List.length_take]; omega, by omega, by omega⟩,
        if_pos ⟨hc1, hc2⟩]
    · rw [if_neg hcase]
      by_cases hy1 : y < layout.length
      · have hx2 : ¬x < ((layout.map String.data).getD y []).length := by tauto
        have hylt : y < 0 + ((layout.map String.data).take d.height).length := by
          rw [hrowslen]; omega
        rw [applyRowsAux_row _ _ _ _ _ _ (Nat.zero_le _) hylt]
        have htake : ((layout.map String.data).take d.height).getD (y - 0) [] =
            (layout.map String.data).getD y [] := by
          rw [Nat.sub_zero, List.getD_eq_getElem?_getD, List.getD_eq_getElem?_getD,
            List.getElem?_take, if_pos hy]
        rw [htake, if_neg ?_]
        rintro ⟨hf, -, -⟩
        simp only [List.length_take] at hf
        omega
      · rw [applyRowsAux_frame _ _ _ _ _ _ (Or.inr ?_)]
        rw [hrowslen]
        simp only [Nat.zero_add]
        omega
  · intro c hc
    simp only [List.mem_cons, List.not_mem_nil, or_false, not_or] at hc
    obtain ⟨n1, n2, n3, n4, n5, n6⟩ := hc
    unfold glyphCell
    rw [if_neg n1, if_neg n2, if_neg n3, if_neg n4, if_neg n5, if_neg n6]

/-! Helper lemmas about `findOtherAt`, `check_item_pickup` and `List.erase`
(claims C3, C6 and C8). -/

theorem findOtherAt_none (es : List Entity) (mover : Entity) (nx ny : Int)
    (h : findOtherAt es mover nx ny = none) :
    ∀ e ∈ es, ¬(e ≠ mover ∧ e.x = nx ∧ e.y = ny) := by
  induction es with
  | nil => simp
  | cons other rest ih =>
      rw [findOtherAt] at h
      by_cases hcond : ((other != mover) && (other.x == nx) && (other.y == ny)) = true
      · rw [if_pos hcond] at h
        exact absurd h (by simp)
      · rw [if_neg hcond] at h
        have hrest := ih (by simpa using h)
        intro e he
        rcases List.mem_cons.mp he with rfl | he'
        · simpa [Bool.and_eq_true, bne_iff_ne, beq_iff_eq, not_and, and_imp]
            using hcond
        · exact hrest e he'

theorem findOtherAt_some (es : List Entity) (mover : Entity) (nx ny : Int) (k : Nat)
    (h : findOtherAt es mover nx ny = some k) :
    k < es.length ∧ es.getD k default ≠ mover ∧
      (es.getD k default).x = nx ∧ (es.getD k default).y = ny := by
  induction es generalizing k with
  | nil => simp [findOtherAt] at h
  | cons other rest ih =>
      rw [findOtherAt] at h
      by_cases hcond : ((other != mover) && (other.x == nx) && (other.y == ny)) = true
      · rw [if_pos hcond] at h
        obtain rfl : k = 0 := by simpa using h.symm
        simp only [Bool.and_eq_true, bne_iff_ne, beq_iff_eq] at hcond
        exact ⟨by simp, by simpa using hcond.1.1, hcond.1.2, hcond.2⟩
      · rw [if_neg hcond] at h
        rcases Option.map_eq_some'.mp h with ⟨j, hj, rfl⟩
        obtain ⟨h1, h2, h3, h4⟩ := ih j hj
        exact ⟨by simpa using h1, by simpa using h2, by simpa using h3,
          by simpa using h4⟩

theorem check_item_pickup_entities (d : VisualDungeon) (x y : Int) :
    (check_item_pickup d x y).entities = d.entities := by
  unfold check_item_pickup
  split <;> rfl

theorem mem_set_of_lt {α : Type} (l : List α) (k : Nat) (a : α)
    (hk : k < l.length) : a ∈ l.set k a := by
  induction l generalizing k with
  | nil => simp at hk
  | cons b t ih =>
      cases k with
      | zero => simp
      | succ k => simpa using Or.inr (ih k (by simpa using hk))

theorem erase_set_of_forall_ne (l : List Entity) (k : Nat) (a : Entity)
    (hk : k < l.length) (hne : ∀ e ∈ l, e ≠ a) :
    (l.set k a).erase a = l.eraseIdx k := by
  induction l generalizing k with
  | nil => simp at hk
  | cons b t ih =>
      cases k with
      | zero => simp [List.erase_cons]
      | succ k =>
          have hb : b ≠ a := hne b (by simp)
          simp only [List.set_cons_succ, List.erase_cons, List.eraseIdx_cons_succ]
          rw [if_neg (by simpa using hb)]
          rw [ih k (by simpa using hk) fun e he => hne e (by simp [he])]

theorem getD_mem_of_lt (l : List Entity) (k : Nat) (hk : k < l.length) :
    l.getD k default ∈ l := by
  rw [List.getD_eq_getElem?_getD, List.getElem?_eq_getElem hk, Option.getD_some]
  exact List.getElem_mem hk

theorem direction_value_ne_zero (dir : Direction) (dy dx : Int)
    (h : dir.value = (dy, dx)) : dx ≠ 0 ∨ dy ≠ 0 := by
  cases dir <;> simp [Direction.value] at h <;> obtain ⟨rfl, rfl⟩ := h <;> omega

/-- C3: `move_entity` returns `False` and leaves the mover unchanged exactly
when the destination is out of bounds, a wall, or occupied by another
entity; in every other case it returns `True`, the mover is relocated to
the destination, and the entity list is updated at the mover's slot
accordingly. -/
theorem move_entity_blocked_iff (d : VisualDungeon) (i : Nat) (dir : Direction)
    (dmg : Int) (hi : i < d.entities.length) :
    (((move_entity d i dir dmg).1 = false ∧
        (move_entity d i dir dmg).2.2 = d.entities.getD i default) ↔
      destBlocked d i dir) ∧
    (¬destBlocked d i dir →
      (move_entity d i dir dmg).1 = true ∧
      (move_entity d i dir dmg).2.2 =
        { d.entities.getD i default with
          x := (d.entities.getD i default).x + (dir.value).2
          y := (d.entities.getD i default).y + (dir.value).1 } ∧
      (move_entity d i dir dmg).2.1.entities =
        d.entities.set i ((move_entity d i dir dmg).2.2)) := by
  rcases hdv : dir.value with ⟨dy, dx⟩
  simp only [move_entity, destBlocked, hdv]
  by_cases hb : 0 ≤ (d.entities.getD i default).x + dx ∧
      (d.entities.getD i default).x + dx < (d.width : Int) ∧
      0 ≤ (d.entities.getD i default).y + dy ∧
      (d.entities.getD i default).y + dy < (d.height : Int)
  · rw [if_neg (not_not_intro hb)]
    by_cases hw : cellAt d ((d.entities.getD i default).y + dy)
        ((d.entities.getD i default).x + dx) = CellType.WALL
    · rw [if_pos hw]
      exact ⟨⟨fun _ => Or.inr (Or.inl hw), fun _ => by simp⟩,
        fun hnb => absurd (Or.inr (Or.inl hw)) hnb⟩
    · rw [if_neg hw]
      rcases hf : findOtherAt d.entities (d.entities.getD i default)
          ((d.entities.getD i default).x + dx)
          ((d.entities.getD i default).y + dy) with _ | k
      · simp only [hf]
        have hnotocc : ¬∃ k, k < d.entities.length ∧ k ≠ i ∧
            (d.entities.getD k default).x = (d.entities.getD i default).x + dx ∧
            (d.entities.getD k default).y = (d.entities.getD i default).y + dy := by
          rintro ⟨k, hk, -, hkx, hky⟩
          have hnone := findOtherAt_none _ _ _ _ hf _ (getD_mem_of_lt _ _ hk)
          have heq : d.entities.getD k default = d.entities.getD i default := by
            by_contra hne
            exact hnone ⟨hne, hkx, hky⟩
          rw [heq] at hkx hky
          rcases direction_value_ne_zero dir dy dx hdv with h0 | h0 <;> omega
        constructor
        · constructor
          · rintro ⟨hfalse, -⟩
            exact absurd hfalse (by simp)
          · intro hblk
            rcases hblk with h | h | h
            · exact absurd hb h
            · exact absurd h hw
            · exact absurd h hnotocc
        · intro hnb
          refine ⟨by simp, by simp, ?_⟩
          split
          · rw [check_item_pickup_entities]
          · rfl
      · simp only [hf]
        obtain ⟨hk1, hk2, hk3, hk4⟩ := findOtherAt_some _ _ _ _ _ hf
        have hocc : ∃ k, k < d.entities.length ∧ k ≠ i ∧
            (d.entities.getD k default).x = (d.entities.getD i default).x + dx ∧
            (d.entities.getD k default).y = (d.entities.getD i default).y + dy := by
          refine ⟨k, hk1, ?_, hk3, hk4⟩
          rintro rfl
          exact hk2 rfl
        exact ⟨⟨fun _ => Or.inr (Or.inr hocc), fun _ => by simp⟩,
          fun hnb => absurd (Or.inr (Or.inr hocc)) hnb⟩
  · rw [if_pos hb]
    exact ⟨⟨fun _ => Or.inl hb, fun _ => by simp⟩,
      fun hnb => absurd (Or.inl hb) hnb⟩

/-- Witness for C3: moving the player of `dC3` left hits a wall, so the
claim's blocking characterisation yields a `False` return with the mover
unchanged. -/
theorem move_entity_blocked_iff_witness :
    0 < dC3.entities.length ∧
    (move_entity dC3 0 Direction.LEFT 15).1 = false ∧
    (move_entity dC3 0 Direction.LEFT 15).2.2 = dC3.entities.getD 0 default :=
  ⟨by decide,
    ((move_entity_blocked_iff dC3 0 Direction.LEFT 15 (by decide)).1.mpr
      (Or.inr (Or.inl (by decide)))).1,
    ((move_entity_blocked_iff dC3 0 Direction.LEFT 15 (by decide)).1.mpr
      (Or.inr (Or.inl (by decide)))).2⟩

/-- C6: combat subtracts the damage draw (the `random.randint(10, 25)`
value, constrained to that range) from the defender's health; if the
result is zero or below, the defender — marked not alive — is removed from
the entity list at once and is no longer a member of it, otherwise only its
health changes in place. -/
theorem combat_applies_damage_and_removes_dead (d : VisualDungeon)
    (attacker : Entity) (k : Nat) (dmg : Int) (hk : k < d.entities.length)
    (halive : ∀ e ∈ d.entities, e.is_alive = true)
    (hlo : 10 ≤ dmg) (hhi : dmg ≤ 25) :
    ((d.entities.getD k default).health - dmg ≤ 0 →
      (Combat d attacker k dmg).entities = d.entities.eraseIdx k ∧
      { d.entities.getD k default with
          health := (d.entities.getD k default).health - dmg,
          is_alive := false } ∉ (Combat d attacker k dmg).entities) ∧
    (0 < (d.entities.getD k default).health - dmg →
      (Combat d attacker k dmg).entities =
        d.entities.set k { d.entities.getD k default with
          health := (d.entities.getD k default).health - dmg }) := by
  constructor
  · intro hdead
    have hdeadval : ({ d.entities.getD k default with
        health := (d.entities.getD k default).health - dmg,
        is_alive := false } : Entity).is_alive = false := rfl
    have hne : ∀ e ∈ d.entities, e ≠ { d.entities.getD k default with
        health := (d.entities.getD k default).health - dmg,
        is_alive := false } := by
      intro e he heq
      have := halive e he
      rw [heq] at this
      simp at this
    have hentities : (Combat d attacker k dmg).entities =
        d.entities.eraseIdx k := by
      simp only [Combat]
      rw [if_pos (by simpa using hdead)]
      simp only [List.set_set]
      rw [if_pos ?_, erase_set_of_forall_ne _ _ _ hk hne]
      exact mem_set_of_lt _ _ _ hk
    refine ⟨hentities, ?_⟩
    rw [hentities]
    intro hmem
    have := halive _ (List.eraseIdx_subset _ _ hmem)
    rw [hdeadval] at this
    exact absurd this (by simp)
  · intro hlive
    simp only [Combat]
    rw [if_neg (by simp only [Int.not_le]; simpa using hlive)]

/-- Witness for C6: a 15-damage hit kills the 12-health goblin, which is
removed from the entity list at once. -/
theorem combat_applies_damage_and_removes_dead_witness :
    1 < dC6.entities.length ∧ (∀ e ∈ dC6.entities, e.is_alive = true) ∧
    (10 : Int) ≤ 15 ∧ (15 : Int) ≤ 25 ∧
    ((Combat dC6 (dC6.entities.getD 0 default) 1 15).entities =
        dC6.entities.eraseIdx 1 ∧
      { dC6.entities.getD 1 default with
          health := (dC6.entities.getD 1 default).health - 15,
          is_alive := false } ∉ (Combat dC6 (dC6.entities.getD 0 default) 1 15).entities) :=
  ⟨by decide, by decide, by decide, by decide,
    (combat_applies_damage_and_removes_dead dC6 (dC6.entities.getD 0 default) 1 15
      (by decide) (by decide) (by decide) (by decide)).1 (by decide)⟩

/-- C8: executing the Move command when the simulation move fails publishes
exactly one "blocked" message, no turn-advanced event, and leaves the turn
counter unchanged; when it succeeds it publishes exactly one
TurnAdvanced(1) event and advances the counter by 1. -/
theorem move_command_events (direction : Direction) (dmg : Int) (st : GameState)
    (p : Nat) (hp : st.dungeon.player = some p) :
    ((move_entity st.dungeon p direction dmg).1 = false →
      MoveCommand.execute direction dmg st =
        some ([Event.message "Your way is blocked!" "yellow"],
          { st with dungeon := (move_entity st.dungeon p direction dmg).2.1 }) ∧
      ({ st with dungeon := (move_entity st.dungeon p direction dmg).2.1 } :
        GameState).turn_count = st.turn_count) ∧
    ((move_entity st.dungeon p direction dmg).1 = true →
      MoveCommand.execute direction dmg st =
        some ([Event.turnAdvanced 1],
          { st with
            dungeon := (move_entity st.dungeon p direction dmg).2.1
            turn_count := st.turn_count + 1 })) := by
  simp only [MoveCommand.execute, hp]
  rcases hm : move_entity st.dungeon p direction dmg with ⟨moved, d2, mv⟩
  simp only [hm]
  cases moved
  · exact ⟨fun _ => by simp, fun h => by simp at h⟩
  · exact ⟨fun h => by simp at h, fun _ => by simp [advance_turn]⟩

/-- Witness for C8: moving up into a wall publishes exactly the blocked
message and leaves the counter at 7. -/
theorem move_command_events_witness :
    stC8.dungeon.player = some 0 ∧
    (move_entity stC8.dungeon 0 Direction.UP 15).1 = false ∧
    MoveCommand.execute Direction.UP 15 stC8 =
      some ([Event.message "Your way is blocked!" "yellow"],
        { stC8 with dungeon := (move_entity stC8.dungeon 0 Direction.UP 15).2.1 }) :=
  ⟨rfl, by decide,
    ((move_command_events Direction.UP 15 stC8 0 rfl).1 (by decide)).1⟩

/-- Witness for C7: one supplied row `"#<"` on a 2-by-2 floor grid. -/
theorem apply_layout_cells_witness :
    gridWF dC7 ∧ 0 < dC7.height ∧ 1 < dC7.width ∧
    ((gridCell (apply_layout dC7 ["#<"]).grid 0 1 =
      if 0 < (["#<"] : List String).length ∧
          1 < (((["#<"] : List String).map String.data).getD 0 []).length
      then glyphCell ((((["#<"] : List String).map String.data).getD 0 []).getD 1 ' ')
      else gridCell dC7.grid 0 1) ∧
    glyphCell '█' = CellType.WALL ∧ glyphCell '.' = CellType.FLOOR ∧
    glyphCell '+' = CellType.DOOR ∧ glyphCell '>' = CellType.STAIRS_DOWN ∧
    glyphCell '<' = CellType.STAIRS_UP ∧ glyphCell '#' = CellType.WALL ∧
    (∀ c : Char, c ∉ (['█', '.', '+', '>', '<', '#'] : List Char) →
      glyphCell c = CellType.FLOOR)) :=
  ⟨⟨rfl, by decide⟩, by decide, by decide,
    apply_layout_cells dC7 ["#<"] 0 1 ⟨rfl, by decide⟩ (by decide) (by decide)⟩

/-- Witness for the amended C5 at the Turn `turnC5`. -/
theorem layout_then_new_room_witness :
    turnC5.room_updates = some (JVal.jobj
      [("new_room", JVal.jbool true),
       ("layout", JVal.jarr [JVal.jstr "█████", JVal.jstr "█...█", JVal.jstr "█.>.█",
         JVal.jstr "█...█", JVal.jstr "█████"])]) ∧
    (evsC5.countP isLayoutEvent = 1 ∧ evsC5.countP isNewRoomEvent = 1 ∧
      layoutBeforeNewRoom evsC5 = true ∧ evsC5.getLast? = some (Event.turnAdvanced 1)) :=
  ⟨rfl, layout_then_new_room turnC5 _ _
    ["█████", "█...█", "█.>.█", "█...█", "█████"] evsC5 rfl rfl rfl rfl rfl rfl⟩

end PromptDungeon
